import Mathlib

/-!
Verification of the package-bundling subsystem of the code-push SDK
(src/script/management-sdk.ts), as a shallow embedding in Lean.

The embedding models:
 - the path classification of `packageFileFromPath` (line 324),
 - the directory branch (lines 325-361): the `recursiveFs.readdirr`
   callback, the per-file entry-name computation, the zip entries added,
   and the promise settlement wired to the stream events,
 - the single-file branch (lines 362-366),
 - `generateRandomFilename` (lines 370-379),
 - the `AccountManager` constructor and `accessKey` getter (lines 45-55),
 - `appNameParam` (lines 392-394).

External collaborators (Node `fs`/`path`, the `slash` package, `yazl`)
are modelled at their documented boundary, with doc comments stating the
boundary facts the model encodes.
-/

namespace CodePush

/-- A JavaScript `Error` value; only its message is relevant here. -/
structure JsError where
  message : String
deriving DecidableEq

/-- The filesystem type of a path as seen by `lstat`: a symbolic link is
its own kind and records the kind of its target (which `stat` would
resolve to). -/
inductive FileKind
  | regular
  | directory
  | symlink (target : FileKind)
  | other
deriving DecidableEq

/-- Model of `fs.lstatSync(p).isDirectory()`: `lstat` reports on the link itself
and does not follow symbolic links, so only a plain directory answers
true. -/
def lstatIsDirectory : FileKind → Bool
  | .directory => true
  | _ => false

/-- Model of `fs.statSync` semantics: symlinks are resolved to their target's
kind. Used only to state the spec's claimed classification. -/
def statKind : FileKind → FileKind
  | .symlink t => statKind t
  | .regular => .regular
  | .directory => .directory
  | .other => .other

inductive PathClass
  | SingleFile
  | Directory
deriving DecidableEq

/-- The classification performed at line 324:
`if (fs.lstatSync(filePath).isDirectory())`. -/
def pathClass (k : FileKind) : PathClass :=
  if lstatIsDirectory k then .Directory else .SingleFile

/-- Classification as the spec's words describe it ("symlinks are
resolved per host filesystem semantics"): directory iff the stat-resolved
kind is a directory. Stated only to compare with `pathClass`. -/
def specPathClass (k : FileKind) : PathClass :=
  if statKind k = FileKind.directory then .Directory else .SingleFile

/-- An absolute filesystem path, as its list of components. -/
abbrev NodePath := List String

/-- Model of `path.dirname`: the path without its last component. -/
def dirname (p : NodePath) : NodePath := p.dropLast

/-- Model of `path.join(dir, name)` for a directory path and one relative
filename, as used at line 344. -/
def pathJoin (p : NodePath) (name : String) : NodePath := p ++ [name]

/-- Model of `path.relative(base, file)` restricted to the domain the bundler
uses: the scanner only yields files strictly below `directoryPath`, and
`base = dirname directoryPath`, so `base` is a prefix of `file` and the
result is the list of remaining components. -/
def relativeUnder (base file : NodePath) : List String := file.drop base.length

/-- Joining path components with a separator, modelling how
`path.relative` renders its result with the host module's native
separator (`/` on posix, `\` on win32). -/
def joinSep (sep : String) : List String → String
  | [] => ""
  | [x] => x
  | x :: y :: xs => x ++ sep ++ joinSep sep (y :: xs)

/-- The character rewrite of the npm `slash` package. -/
def slashChar (c : Char) : Char := if c = '\\' then '/' else c

/-- The npm `slash` package: every backslash becomes a forward slash,
except that a Windows extended-length path (leading `\\?\`) is returned
unchanged. -/
def slash (s : String) : String :=
  if s.data.take 4 = ['\\', '\\', '?', '\\'] then s
  else ⟨s.data.map slashChar⟩

/-- Entry-name computation of lines 351-354:
`slash(path.relative(baseDirectoryPath, file))`, parameterised by the
host path module's separator. -/
def mkEntryName (sep : String) (base file : NodePath) : String :=
  slash (joinSep sep (relativeUnder base file))

/-- Model of `String.prototype.charAt`: the character at the index as a
one-character string, or the empty string when out of range. -/
def charAtD (s : String) (i : Nat) : String :=
  match s.data.get? i with
  | some c => String.singleton c
  | none => ""

/-- The alphabet of line 372. -/
def validChar : String :=
  "ABCDEFGHIJKLMNOPQRSTUVWXYZabcdefghijklmnopqrstuvwxyz0123456789"

/-- The for loop of lines 374-376; `randIdx i` models
`Math.floor(Math.random() * validChar.length)` at iteration `i` (a
natural below 62, since `Math.random()` lies in `[0,1)`). -/
def genLoop (randIdx : Nat → Nat) : Nat → Nat → String → String
  | 0, _, acc => acc
  | n + 1, i, acc => genLoop randIdx n (i + 1) (acc ++ charAtD validChar (randIdx i))

/-- The function `generateRandomFilename` (lines 370-379), with the stream of random
draws made explicit. -/
def generateRandomFilename (len : Nat) (randIdx : Nat → Nat) : String :=
  genLoop randIdx len 0 ""

/-- The descriptor resolved by `packageFileFromPath` (interface
`PackageFile`, lines 17-20). -/
structure PackageFile where
  isTemporary : Bool
  path : NodePath
deriving DecidableEq

/-- How the promise of `packageFileFromPath` ends up: settled by
`resolve`, settled by `reject`, or never settled (an error event fired
on an emitter with no listener, which raises an uncaught exception). -/
inductive BundleOutcome
  | resolved (pf : PackageFile)
  | rejected (e : JsError)
  | unsettled
deriving DecidableEq

/-- One `zipFile.addFile(file, relativePath)` call (line 356). -/
structure ZipEntry where
  sourcePath : NodePath
  entryName : String
deriving DecidableEq

/-- What happens while yazl streams the added entries into the
destination file after `zipFile.end()`:
 - `sourceReadError`: some source file cannot be opened or read.  yazl
   emits this as an `error` event on the ZipFile emitter; `pipe` does
   not forward source-side errors to its destination, and
   `packageFileFromPath` attaches listeners only to the piped write
   stream (lines 339-347), so no listener receives this error.
 - `destError`: the destination write stream emits `error` (handled at
   lines 340-342).
 - `completedClose`: streaming completes and the destination write
   stream emits `close` (handled at lines 343-347). -/
inductive StreamFate
  | sourceReadError (e : JsError)
  | destError (e : JsError)
  | completedClose
deriving DecidableEq

/-- The environment a `packageFileFromPath` call runs in: the `lstat`
kind of the input path, the outcome of the `recursiveFs.readdirr` scan
(error, or the ordered list of files it yielded), the fate of the
streaming phase, the process working directory, the random draws, the
bytes of each file on disk, and the host path separator. -/
structure BundleEnv where
  lstatK : FileKind
  scan : Except JsError (List NodePath)
  fate : StreamFate
  cwd : NodePath
  randIdx : Nat → Nat
  content : NodePath → List Nat
  sep : String

/-- Observable result of one `packageFileFromPath` call: how the promise
settled, whether `fs.createWriteStream` was executed (an archive file
created on disk), the `addFile` calls made in order, whether
`zipFile.end()` was called, and the generated archive filename. -/
structure DirRun where
  outcome : BundleOutcome
  archiveCreated : Bool
  entries : List ZipEntry
  finalized : Bool
  fileName : String
deriving DecidableEq

/-- The directory branch (lines 325-361): the `readdirr` callback
rejects on a scan error before any archive state is created; otherwise
it computes `baseDirectoryPath = dirname(directoryPath)`, the random
archive name, adds one entry per scanned file in scan order with its
normalized relative path, calls `end()`, and settles the promise
according to the stream events it subscribed to. -/
def runDirectoryBranch (directoryPath : NodePath) (env : BundleEnv) : DirRun :=
  match env.scan with
  | .error e => ⟨.rejected e, false, [], false, ""⟩
  | .ok files =>
    let baseDirectoryPath := dirname directoryPath
    let fileName := generateRandomFilename 15 env.randIdx ++ ".zip"
    let entries := files.map fun file =>
      ZipEntry.mk file (mkEntryName env.sep baseDirectoryPath file)
    let outcome : BundleOutcome :=
      match env.fate with
      | .sourceReadError _ => .unsettled
      | .destError e => .rejected e
      | .completedClose => .resolved ⟨true, pathJoin env.cwd fileName⟩
    ⟨outcome, true, entries, true, fileName⟩

/-- The function `packageFileFromPath` (lines 322-368): classify via `lstat`; a
directory runs the archiving branch, anything else resolves immediately
with the input path and `isTemporary: false`. -/
def packageFileFromPath (filePath : NodePath) (env : BundleEnv) : DirRun :=
  if lstatIsDirectory env.lstatK then runDirectoryBranch filePath env
  else ⟨.resolved ⟨false, filePath⟩, false, [], false, ""⟩

/-- One member of the finished zip archive. -/
structure ArchiveMember where
  name : String
  content : List Nat
deriving DecidableEq

/-- Boundary model of yazl: the `addFile` calls made before `end()`
produce, in call order, one archive member per call whose bytes are the
source file's bytes. -/
def finalArchive (content : NodePath → List Nat) (entries : List ZipEntry) :
    List ArchiveMember :=
  entries.map fun e => ⟨e.entryName, content e.sourcePath⟩

/-- The error `CodePushUnauthorizedError` thrown by the constructor (line 46). -/
structure CodePushUnauthorizedError where
  message : String
deriving DecidableEq

/-- The instance state the claims observe: the stored access key
(line 48).  `RequestManager` and `Adapter` are external collaborators. -/
structure AccountManagerState where
  _accessKey : String
deriving DecidableEq

/-- The `AccountManager` constructor (lines 45-51): `!accessKey` is true
exactly for an absent (`none`) or empty access key, in which case a
`CodePushUnauthorizedError` is thrown before any state is initialised;
otherwise the key is stored. -/
def AccountManager.construct :
    Option String → Except CodePushUnauthorizedError AccountManagerState
  | none => .error ⟨"A token must be specified."⟩
  | some s =>
    if s = "" then .error ⟨"A token must be specified."⟩
    else .ok ⟨s⟩

/-- The `accessKey` getter (lines 53-55). -/
def AccountManager.accessKey (m : AccountManagerState) : String := m._accessKey

/-- JS `String.prototype.replace` with the string pattern `"/"` and
replacement `"~~"` replaces only the first occurrence; this is the
character-level recursion doing exactly that. -/
def replaceFirstSlash : List Char → List Char
  | [] => []
  | c :: cs => if c = '/' then '~' :: '~' :: cs else c :: replaceFirstSlash cs

/-- The function `appNameParam` (lines 392-394): `appName.replace("/", "~~")`. -/
def appNameParam (s : String) : String := ⟨replaceFirstSlash s.data⟩

/-- C2 counterexample: a symbolic link whose target is a directory is
classified `SingleFile` by the code (line 324 uses `lstat`, which does
not follow symlinks), while the claim's classification — symlinks
resolved — would call it `Directory`. -/
theorem c2_symlink_counterexample :
    pathClass (FileKind.symlink FileKind.directory) = PathClass.SingleFile ∧
    specPathClass (FileKind.symlink FileKind.directory) = PathClass.Directory ∧
    pathClass (FileKind.symlink FileKind.directory) ≠
      specPathClass (FileKind.symlink FileKind.directory) := by
  refine ⟨rfl, ?_, ?_⟩ <;> simp [pathClass, specPathClass, statKind, lstatIsDirectory]

/-- C2 (amended): the classification is based solely on the path's
`lstat` type, with symbolic links not followed: a path is classified
`Directory` exactly when it is itself a directory, so a symbolic link —
whatever its target — is classified `SingleFile`. -/
theorem c2_lstat_classification :
    ∀ k : FileKind, (pathClass k = PathClass.Directory ↔ k = FileKind.directory) ∧
      (∀ t : FileKind, pathClass (FileKind.symlink t) = PathClass.SingleFile) := by
  intro k
  refine ⟨?_, fun t => rfl⟩
  cases k <;> simp [pathClass, lstatIsDirectory]

/-- C6: for an input whose `lstat` type is not a directory, the promise
resolves immediately with `{ path: inputPath, isTemporary: false }`, no
write stream is opened, no entry is added and no archive is finalized. -/
theorem c6_single_file_passthrough
    (filePath : NodePath) (env : BundleEnv)
    (h : lstatIsDirectory env.lstatK = false) :
    packageFileFromPath filePath env =
      ⟨.resolved ⟨false, filePath⟩, false, [], false, ""⟩ := by
  simp [packageFileFromPath, h]

/-- C6 witness: a concrete regular-file input. -/
theorem c6_single_file_passthrough_witness :
    packageFileFromPath ["home", "update.zip"]
        ⟨.regular, .ok [], .completedClose, ["home"], fun _ => 0, fun _ => [], "/"⟩ =
      ⟨.resolved ⟨false, ["home", "update.zip"]⟩, false, [], false, ""⟩ :=
  c6_single_file_passthrough ["home", "update.zip"] _ rfl

/-- C7: when the recursive scan fails, the callback rejects with the
very error it received and returns at once: no write stream is opened,
no entry is added, no archive is finalized, and no retry happens (the
result is fully determined as this single rejection). -/
theorem c7_scan_error_aborts
    (filePath : NodePath) (env : BundleEnv) (e : JsError)
    (hdir : lstatIsDirectory env.lstatK = true)
    (hscan : env.scan = .error e) :
    packageFileFromPath filePath env = ⟨.rejected e, false, [], false, ""⟩ := by
  simp [packageFileFromPath, hdir, runDirectoryBranch, hscan]

/-- C7 witness: a concrete directory whose scan fails. -/
theorem c7_scan_error_aborts_witness :
    packageFileFromPath ["app", "dist"]
        ⟨.directory, .error ⟨"EACCES"⟩, .completedClose, ["app"],
          fun _ => 0, fun _ => [], "/"⟩ =
      ⟨.rejected ⟨"EACCES"⟩, false, [], false, ""⟩ :=
  c7_scan_error_aborts ["app", "dist"] _ ⟨"EACCES"⟩ rfl rfl

/-- C1 (code bug): a directory is scanned to one file which is then
deleted before yazl reads it.  The read error is emitted on the zip
emitter, to which the code attaches no listener (its `error` handler
sits on the piped write stream, and `pipe` does not forward source
errors), so the promise is neither rejected nor resolved — in
particular it is not rejected with an `IOError` as the claim states,
though it also never resolves with a truncated archive. -/
theorem c1_read_failure_never_rejects :
    (packageFileFromPath ["app", "dist"]
        ⟨.directory, .ok [["app", "dist", "index.js"]],
          .sourceReadError ⟨"ENOENT"⟩, ["app"], fun _ => 0, fun _ => [], "/"⟩).outcome
      = BundleOutcome.unsettled := by
  rfl

/-- C10: `appNameParam` rewrites only the first `/` of the app name to
`~~`; everything after that first occurrence — including any further
slashes — is carried over verbatim. -/
theorem c10_appNameParam_first_slash_only
    (xs ys : List Char) (hxs : '/' ∉ xs) :
    (appNameParam ⟨xs ++ '/' :: ys⟩).data = xs ++ '~' :: '~' :: ys := by
  induction xs with
  | nil => simp [appNameParam, replaceFirstSlash]
  | cons c cs ih =>
    have hc : c ≠ '/' := fun h => hxs (by simp [h])
    have hcs : '/' ∉ cs := fun h => hxs (List.mem_cons_of_mem _ h)
    have ih' := ih hcs
    simp only [appNameParam] at ih' ⊢
    simp [replaceFirstSlash, hc, ih']

/-- C10 witness: an app name with two slashes keeps the second one. -/
theorem c10_appNameParam_first_slash_only_witness :
    (appNameParam ⟨['o', 'r', 'g'] ++ '/' :: ['a', '/', 'b']⟩).data =
      ['o', 'r', 'g'] ++ '~' :: '~' :: ['a', '/', 'b'] :=
  c10_appNameParam_first_slash_only ['o', 'r', 'g'] ['a', '/', 'b'] (by decide)

/-- C9: constructing an `AccountManager` with an absent or empty access
key throws `CodePushUnauthorizedError` (no state is produced); with any
non-empty key it succeeds, and the `accessKey` getter returns exactly
the key that was passed in. -/
theorem c9_constructor_access_key :
    AccountManager.construct none = .error ⟨"A token must be specified."⟩ ∧
    AccountManager.construct (some "") = .error ⟨"A token must be specified."⟩ ∧
    ∀ s : String, s ≠ "" →
      AccountManager.construct (some s) = .ok ⟨s⟩ ∧
      AccountManager.accessKey ⟨s⟩ = s := by
  refine ⟨rfl, rfl, fun s hs => ⟨?_, rfl⟩⟩
  simp [AccountManager.construct, hs]

/-- C9 witness: a concrete non-empty access key. -/
theorem c9_constructor_access_key_witness :
    AccountManager.construct (some "key123") = .ok ⟨"key123"⟩ ∧
    AccountManager.accessKey ⟨"key123"⟩ = "key123" :=
  c9_constructor_access_key.2.2 "key123" (by decide)

/-- C3: whenever the promise resolves with a descriptor whose
`isTemporary` is true, the streaming phase completed and the destination
write stream emitted `close` after `zipFile.end()` was called, and the
descriptor's path is the generated archive name joined to the working
directory — resolution happens only inside the `close` handler. -/
theorem c3_temporary_resolution_only_on_close
    (filePath : NodePath) (env : BundleEnv) (pf : PackageFile)
    (hres : (packageFileFromPath filePath env).outcome = .resolved pf)
    (htmp : pf.isTemporary = true) :
    env.fate = .completedClose ∧
    (packageFileFromPath filePath env).finalized = true ∧
    pf = ⟨true, pathJoin env.cwd (packageFileFromPath filePath env).fileName⟩ := by
  by_cases hdir : lstatIsDirectory env.lstatK = true
  · cases hscan : env.scan with
    | error e =>
      simp [packageFileFromPath, hdir, runDirectoryBranch, hscan] at hres
    | ok files =>
      cases hfate : env.fate with
      | sourceReadError e =>
        simp [packageFileFromPath, hdir, runDirectoryBranch, hscan, hfate] at hres
      | destError e =>
        simp [packageFileFromPath, hdir, runDirectoryBranch, hscan, hfate] at hres
      | completedClose =>
        simp only [packageFileFromPath, hdir, if_true, runDirectoryBranch, hscan,
          hfate, BundleOutcome.resolved.injEq] at hres
        refine ⟨rfl, ?_, ?_⟩
        · simp [packageFileFromPath, hdir, runDirectoryBranch, hscan]
        · rw [← hres]
          simp [packageFileFromPath, hdir, runDirectoryBranch, hscan]
  · have hfalse : lstatIsDirectory env.lstatK = false := by
      cases h : lstatIsDirectory env.lstatK
      · rfl
      · exact absurd h hdir
    simp [packageFileFromPath, hfalse] at hres
    rw [← hres] at htmp
    exact absurd htmp (by simp)

/-- C3 witness: a concrete directory bundling that resolves with a
temporary descriptor. -/
theorem c3_temporary_resolution_only_on_close_witness :
    (⟨.directory, .ok [], .completedClose, ["tmp"], fun _ => 0, fun _ => [],
        "/"⟩ : BundleEnv).fate = StreamFate.completedClose ∧
    (packageFileFromPath ["pkg"]
      ⟨.directory, .ok [], .completedClose, ["tmp"], fun _ => 0, fun _ => [],
        "/"⟩).finalized = true ∧
    (⟨true, ["tmp", "AAAAAAAAAAAAAAA.zip"]⟩ : PackageFile) =
      ⟨true, pathJoin ["tmp"]
        (packageFileFromPath ["pkg"]
          ⟨.directory, .ok [], .completedClose, ["tmp"], fun _ => 0, fun _ => [],
            "/"⟩).fileName⟩ :=
  c3_temporary_resolution_only_on_close ["pkg"] _
    ⟨true, ["tmp", "AAAAAAAAAAAAAAA.zip"]⟩ (by decide) rfl

/-- C4: on a successful directory bundling, the finished archive has
exactly one member per scanned file, in scan order, each named by the
normalized relative path and holding the source file's bytes; the
archive is finalized, and an empty scan yields a finalized archive with
zero members. -/
theorem c4_archive_matches_scan
    (dp : NodePath) (env : BundleEnv) (files : List NodePath)
    (hdir : lstatIsDirectory env.lstatK = true)
    (hscan : env.scan = .ok files)
    (hfate : env.fate = .completedClose) :
    (∃ pf, (packageFileFromPath dp env).outcome = .resolved pf) ∧
    (packageFileFromPath dp env).finalized = true ∧
    finalArchive env.content (packageFileFromPath dp env).entries =
      files.map (fun f =>
        ⟨mkEntryName env.sep (dirname dp) f, env.content f⟩) ∧
    (finalArchive env.content (packageFileFromPath dp env).entries).length =
      files.length := by
  refine ⟨⟨⟨true, pathJoin env.cwd
      (generateRandomFilename 15 env.randIdx ++ ".zip")⟩, ?_⟩, ?_, ?_, ?_⟩ <;>
    simp [packageFileFromPath, hdir, runDirectoryBranch, hscan, hfate,
      finalArchive, List.map_map, Function.comp]

/-- C4 witness: the spec's own example — a root with `a.txt` and
`sub/b.txt` yields exactly the members `root/a.txt` and
`root/sub/b.txt` with the source bytes. -/
theorem c4_archive_matches_scan_witness :
    (∃ pf, (packageFileFromPath ["home", "root"]
      ⟨.directory,
        .ok [["home", "root", "a.txt"], ["home", "root", "sub", "b.txt"]],
        .completedClose, ["home"], fun _ => 0, fun p => [p.length],
        "/"⟩).outcome = .resolved pf) ∧
    (packageFileFromPath ["home", "root"]
      ⟨.directory,
        .ok [["home", "root", "a.txt"], ["home", "root", "sub", "b.txt"]],
        .completedClose, ["home"], fun _ => 0, fun p => [p.length],
        "/"⟩).finalized = true ∧
    finalArchive (fun p => [p.length])
      (packageFileFromPath ["home", "root"]
        ⟨.directory,
          .ok [["home", "root", "a.txt"], ["home", "root", "sub", "b.txt"]],
          .completedClose, ["home"], fun _ => 0, fun p => [p.length],
          "/"⟩).entries =
      [["home", "root", "a.txt"], ["home", "root", "sub", "b.txt"]].map
        (fun f => ⟨mkEntryName "/" (dirname ["home", "root"]) f, [f.length]⟩) ∧
    (finalArchive (fun p => [p.length])
      (packageFileFromPath ["home", "root"]
        ⟨.directory,
          .ok [["home", "root", "a.txt"], ["home", "root", "sub", "b.txt"]],
          .completedClose, ["home"], fun _ => 0, fun p => [p.length],
          "/"⟩).entries).length = 2 :=
  c4_archive_matches_scan ["home", "root"] _
    [["home", "root", "a.txt"], ["home", "root", "sub", "b.txt"]] rfl rfl rfl

/-- Membership in the character class `[A-Za-z0-9]`. -/
def isAlphanumChar (c : Char) : Bool :=
  ('A' ≤ c && c ≤ 'Z') || ('a' ≤ c && c ≤ 'z') || ('0' ≤ c && c ≤ '9')

theorem validChar_alphanum : ∀ c ∈ validChar.data, isAlphanumChar c = true := by
  decide

theorem validChar_length : validChar.data.length = 62 := by decide

/-- Applying `charAt` at an in-range index yields one character of the alphabet. -/
theorem charAtD_validChar (j : Nat) (hj : j < 62) :
    ∃ c, charAtD validChar j = String.singleton c ∧ isAlphanumChar c = true := by
  have hj' : j < validChar.data.length := validChar_length ▸ hj
  refine ⟨validChar.data.get ⟨j, hj'⟩, ?_,
    validChar_alphanum _ (List.get_mem _ _ _)⟩
  unfold charAtD
  rw [List.get?_eq_get hj']

/-- The loop of `generateRandomFilename`: starting from `acc`, `n` more
iterations with in-range draws append exactly `n` alphabet characters. -/
theorem genLoop_spec (randIdx : Nat → Nat) (hrand : ∀ i, randIdx i < 62) :
    ∀ (n i : Nat) (acc : String),
      (genLoop randIdx n i acc).length = acc.length + n ∧
      ∀ c ∈ (genLoop randIdx n i acc).data,
        c ∈ acc.data ∨ isAlphanumChar c = true := by
  intro n
  induction n with
  | zero => intro i acc; exact ⟨rfl, fun c hc => Or.inl hc⟩
  | succ m ih =>
    intro i acc
    obtain ⟨ch, hcheq, hchal⟩ := charAtD_validChar (randIdx i) (hrand i)
    have hstep := ih (i + 1) (acc ++ charAtD validChar (randIdx i))
    refine ⟨?_, ?_⟩
    · rw [genLoop, hstep.1, String.length_append, hcheq]
      have : (String.singleton ch).length = 1 := rfl
      omega
    · intro c hc
      rcases hstep.2 c (by rw [genLoop] at hc; exact hc) with hmem | halnum
      · rw [String.data_append, hcheq] at hmem
        have hd : (String.singleton ch).data = [ch] := rfl
        rw [hd] at hmem
        rcases List.mem_append.mp hmem with h | h
        · exact Or.inl h
        · rcases List.mem_singleton.mp h with rfl
          exact Or.inr hchal
      · exact Or.inr halnum

/-- C8: on a successful directory bundling with in-range random draws,
the generated archive name is a 15-character alphanumeric token (so it
matches the regular expression `[A-Za-z0-9]` at each of its 15
positions) with the fixed `.zip` suffix appended, and the resolved
descriptor's path is that filename joined to the process's working
directory. -/
theorem c8_temp_filename_shape
    (dp : NodePath) (env : BundleEnv) (files : List NodePath)
    (hdir : lstatIsDirectory env.lstatK = true)
    (hscan : env.scan = .ok files)
    (hfate : env.fate = .completedClose)
    (hrand : ∀ i, env.randIdx i < 62) :
    (generateRandomFilename 15 env.randIdx).length = 15 ∧
    (∀ c ∈ (generateRandomFilename 15 env.randIdx).data,
      isAlphanumChar c = true) ∧
    (packageFileFromPath dp env).fileName =
      generateRandomFilename 15 env.randIdx ++ ".zip" ∧
    (packageFileFromPath dp env).outcome =
      .resolved ⟨true,
        pathJoin env.cwd (generateRandomFilename 15 env.randIdx ++ ".zip")⟩ := by
  have h := genLoop_spec env.randIdx hrand 15 0 ""
  refine ⟨h.1, fun c hc => ?_, ?_, ?_⟩
  · rcases h.2 c hc with hmem | halnum
    · exact absurd hmem (List.not_mem_nil c)
    · exact halnum
  · simp [packageFileFromPath, hdir, runDirectoryBranch, hscan]
  · simp [packageFileFromPath, hdir, runDirectoryBranch, hscan, hfate]

/-- C8 witness: a concrete draw stream (all zeros) produces
`AAAAAAAAAAAAAAA.zip` in the working directory. -/
theorem c8_temp_filename_shape_witness :
    (generateRandomFilename 15 (fun _ => 0)).length = 15 ∧
    (∀ c ∈ (generateRandomFilename 15 (fun _ => 0)).data,
      isAlphanumChar c = true) ∧
    (packageFileFromPath ["pkg"]
      ⟨.directory, .ok [], .completedClose, ["tmp"], fun _ => 0, fun _ => [],
        "/"⟩).fileName = generateRandomFilename 15 (fun _ => 0) ++ ".zip" ∧
    (packageFileFromPath ["pkg"]
      ⟨.directory, .ok [], .completedClose, ["tmp"], fun _ => 0, fun _ => [],
        "/"⟩).outcome =
      .resolved ⟨true,
        pathJoin ["tmp"] (generateRandomFilename 15 (fun _ => 0) ++ ".zip")⟩ :=
  c8_temp_filename_shape ["pkg"]
    ⟨.directory, .ok [], .completedClose, ["tmp"], fun _ => 0, fun _ => [], "/"⟩
    [] rfl rfl rfl (fun _ => (by decide : (0 : Nat) < 62))

/-- Mapping the slash rewrite over backslash-free characters changes
nothing. -/
theorem mapSlashChar_eq_self (l : List Char) (h : ∀ c ∈ l, c ≠ '\\') :
    l.map slashChar = l := by
  induction l with
  | nil => rfl
  | cons c cs ih =>
    have hc : c ≠ '\\' := h c (List.mem_cons_self _ _)
    simp only [List.map_cons, slashChar, if_neg hc,
      ih (fun d hd => h d (List.mem_cons_of_mem _ hd))]

/-- A join of a nonempty component list starts with its first
component's characters. -/
theorem joinSep_cons_data (sep : String) (r : String) (rest : List String) :
    ∃ t, (joinSep sep (r :: rest)).data = r.data ++ t := by
  cases rest with
  | nil => exact ⟨[], by simp [joinSep]⟩
  | cons y ys =>
    refine ⟨sep.data ++ (joinSep sep (y :: ys)).data, ?_⟩
    have h : joinSep sep (r :: y :: ys) = r ++ sep ++ joinSep sep (y :: ys) := rfl
    rw [h, String.data_append, String.data_append, List.append_assoc]

/-- A forward-slash join of backslash-free components contains no
backslash. -/
theorem no_backslash_joinSep (comps : List String)
    (h : ∀ s ∈ comps, ∀ c ∈ s.data, c ≠ '\\') :
    ∀ c ∈ (joinSep "/" comps).data, c ≠ '\\' := by
  induction comps with
  | nil =>
    intro c hc
    have he : (joinSep "/" []).data = [] := rfl
    rw [he] at hc
    exact absurd hc (List.not_mem_nil c)
  | cons x xs ih =>
    cases xs with
    | nil => exact fun c hc => h x (List.mem_cons_self _ _) c hc
    | cons y ys =>
      intro c hc
      have he : joinSep "/" (x :: y :: ys) = x ++ "/" ++ joinSep "/" (y :: ys) := rfl
      rw [he, String.data_append, String.data_append] at hc
      rcases List.mem_append.mp hc with hc | hc
      · rcases List.mem_append.mp hc with hc | hc
        · exact h x (List.mem_cons_self _ _) c hc
        · have : c = '/' := by
            have hd : ("/" : String).data = ['/'] := rfl
            rw [hd] at hc
            exact List.mem_singleton.mp hc
          simp [this]
      · exact ih (fun s hs => h s (List.mem_cons_of_mem _ hs)) c hc

/-- Applying `slash` leaves a backslash-free string unchanged. -/
theorem slash_eq_self_of_no_backslash (s : String)
    (h : ∀ c ∈ s.data, c ≠ '\\') : slash s = s := by
  unfold slash
  rw [if_neg, mapSlashChar_eq_self s.data h]
  intro hEq
  have hmem : '\\' ∈ s.data.take 4 := by rw [hEq]; simp
  exact h '\\' (List.take_subset _ _ hmem) rfl

/-- Rewriting backslashes in a backslash-separated join of
backslash-free components yields the forward-slash join. -/
theorem map_slash_joinSep_backslash (comps : List String)
    (h : ∀ s ∈ comps, ∀ c ∈ s.data, c ≠ '\\') :
    (joinSep "\\" comps).data.map slashChar = (joinSep "/" comps).data := by
  induction comps with
  | nil => rfl
  | cons x xs ih =>
    cases xs with
    | nil => exact mapSlashChar_eq_self x.data (h x (List.mem_cons_self _ _))
    | cons y ys =>
      have h1 : joinSep "\\" (x :: y :: ys) = x ++ "\\" ++ joinSep "\\" (y :: ys) := rfl
      have h2 : joinSep "/" (x :: y :: ys) = x ++ "/" ++ joinSep "/" (y :: ys) := rfl
      have h3 : List.map slashChar ("\\" : String).data = ("/" : String).data := rfl
      rw [h1, h2, String.data_append, String.data_append, String.data_append,
        String.data_append, List.map_append, List.map_append,
        mapSlashChar_eq_self x.data (h x (List.mem_cons_self _ _)),
        ih (fun s hs => h s (List.mem_cons_of_mem _ hs)), h3]

/-- A character list starting with a non-backslash character is not an
extended-length prefix. -/
theorem take4_ne_pattern (r : String) (t : List Char) (hroot : r ≠ "")
    (h : ∀ c ∈ r.data, c ≠ '\\') :
    (r.data ++ t).take 4 ≠ ['\\', '\\', '?', '\\'] := by
  cases hd : r.data with
  | nil => exact absurd (String.ext hd) hroot
  | cons c cs =>
    intro hEq
    have he : ((c :: cs) ++ t).take 4 = c :: (cs ++ t).take 3 := rfl
    rw [he] at hEq
    have hc : c = '\\' := by injection hEq
    exact h c (hd ▸ List.mem_cons_self _ _) hc

/-- C5: for a scanned file below the root, the entry name is the pure
forward-slash join of the root's own name and the file's path below it:
it equals `joinSep "/" (rootName :: rest)` whichever of the two native
separators the host uses, it has no leading slash, and it starts with
the scanned root directory's own name. -/
theorem c5_entry_name_normalized
    (sep : String) (base : NodePath) (rootName : String) (rest : List String)
    (hsep : sep = "/" ∨ sep = "\\")
    (hroot : rootName ≠ "")
    (hrootc : ∀ c ∈ rootName.data, c ≠ '\\' ∧ c ≠ '/')
    (hrest : ∀ s ∈ rest, ∀ c ∈ s.data, c ≠ '\\') :
    mkEntryName sep base (base ++ rootName :: rest) =
      joinSep "/" (rootName :: rest) ∧
    (∀ c, (mkEntryName sep base (base ++ rootName :: rest)).data.head? = some c →
      c ≠ '/') ∧
    ∃ t, (mkEntryName sep base (base ++ rootName :: rest)).data =
      rootName.data ++ t := by
  have hrel : relativeUnder base (base ++ rootName :: rest) = rootName :: rest := by
    unfold relativeUnder
    exact List.drop_left _ _
  have hall : ∀ s ∈ rootName :: rest, ∀ c ∈ s.data, c ≠ '\\' := by
    intro s hs
    rcases List.mem_cons.mp hs with rfl | hs
    · exact fun c hc => (hrootc c hc).1
    · exact hrest s hs
  have hmain : mkEntryName sep base (base ++ rootName :: rest) =
      joinSep "/" (rootName :: rest) := by
    unfold mkEntryName
    rw [hrel]
    rcases hsep with rfl | rfl
    · exact slash_eq_self_of_no_backslash _ (no_backslash_joinSep _ hall)
    · unfold slash
      rw [if_neg, map_slash_joinSep_backslash _ hall]
      obtain ⟨t, ht⟩ := joinSep_cons_data "\\" rootName rest
      rw [ht]
      exact take4_ne_pattern rootName t hroot (fun c hc => (hrootc c hc).1)
  obtain ⟨t, ht⟩ := joinSep_cons_data "/" rootName rest
  refine ⟨hmain, ?_, ⟨t, by rw [hmain, ht]⟩⟩
  intro c hc
  rw [hmain, ht] at hc
  cases hd : rootName.data with
  | nil => exact absurd (String.ext hd) hroot
  | cons c0 cs =>
    rw [hd] at hc
    have : c = c0 := by
      simp only [List.cons_append, List.head?_cons, Option.some.injEq] at hc
      exact hc.symm
    exact this ▸ (hrootc c0 (hd ▸ List.mem_cons_self _ _)).2

/-- C5 witness: the posix separator on a file two levels below the
scanned root's parent. -/
theorem c5_entry_name_normalized_witness :
    mkEntryName "/" ["home"] (["home"] ++ "root" :: ["a.txt"]) =
      joinSep "/" ("root" :: ["a.txt"]) ∧
    (∀ c, (mkEntryName "/" ["home"] (["home"] ++ "root" :: ["a.txt"])).data.head? =
      some c → c ≠ '/') ∧
    ∃ t, (mkEntryName "/" ["home"] (["home"] ++ "root" :: ["a.txt"])).data =
      "root".data ++ t :=
  c5_entry_name_normalized "/" ["home"] "root" ["a.txt"]
    (Or.inl rfl) (by decide) (by decide) (by decide)

end CodePush
